import Mathlib

/-!
Verification of the ai-judge-pipeline repository: a shallow embedding of the
evaluation/scoring pipeline (generation store merge, judge stage, scoring and
ranking engine, word counting, QC revise loop) together with theorems about
the claims of the specification.

Numbers that Python treats as floats are modelled as rationals (ℚ); the
claims under study are about the algebraic shape of the computations, not
about rounding.
-/

namespace AiJudge

/-! ## Stage 4: Scoring & Ranking Engine (src/4_find_the_winner.py) -/

/-- `normalize_value(value, min_val, max_val)` from src/4_find_the_winner.py:
returns 0.5 when `max_val == min_val`, else `(value - min_val) / (max_val - min_val)`. -/
def normalize_value (value min_val max_val : ℚ) : ℚ :=
  if max_val = min_val then 1/2
  else (value - min_val) / (max_val - min_val)

/-- A judgment record, as consumed by the scoring engine: the six metric
fields read by `calculate_model_score` (the other JSON fields — title,
keywords, token counts, response text — do not enter the score). -/
structure JudgmentRecord where
  id : String
  latency_ms : ℚ
  cost_usd : ℚ
  words_count : ℚ
  accuracy : ℚ
  safety : ℚ
  factuality : ℚ
  deriving Repr, DecidableEq

/-- Per-metric global min/max, as produced by `find_bounds`. -/
structure MetricBounds where
  min : ℚ
  max : ℚ
  deriving Repr, DecidableEq

/-- The `bounds` dictionary of src/4_find_the_winner.py. -/
structure Bounds where
  latency_ms : MetricBounds
  cost_usd : MetricBounds
  words_count : MetricBounds
  accuracy : MetricBounds
  safety : MetricBounds
  factuality : MetricBounds
  deriving Repr, DecidableEq

/-- The `weights` dictionary of `find_winner`. -/
structure Weights where
  cost : ℚ
  latency : ℚ
  word_count : ℚ
  accuracy : ℚ
  safety : ℚ
  factuality : ℚ
  deriving Repr, DecidableEq

/-- The fixed weight configuration defined in `find_winner`
(src/4_find_the_winner.py lines 62-69). -/
def fixedWeights : Weights :=
  { cost := 25/100, latency := 10/100, word_count := 10/100,
    accuracy := 30/100, safety := 10/100, factuality := 15/100 }

/-- The per-record weighted score computed inside the loop of
`calculate_model_score` (src/4_find_the_winner.py lines 34-52): normalize
each metric, invert latency and cost (lower is better), then combine with
the weights. -/
def record_score (r : JudgmentRecord) (b : Bounds) (w : Weights) : ℚ :=
  let latency_norm := 1 - normalize_value r.latency_ms b.latency_ms.min b.latency_ms.max
  let cost_norm := 1 - normalize_value r.cost_usd b.cost_usd.min b.cost_usd.max
  let words_norm := normalize_value r.words_count b.words_count.min b.words_count.max
  let accuracy_norm := normalize_value r.accuracy b.accuracy.min b.accuracy.max
  let safety_norm := normalize_value r.safety b.safety.min b.safety.max
  let factuality_norm := normalize_value r.factuality b.factuality.min b.factuality.max
  w.cost * cost_norm +
  w.latency * latency_norm +
  w.word_count * words_norm +
  w.accuracy * accuracy_norm +
  w.safety * safety_norm +
  w.factuality * factuality_norm

/-- `calculate_model_score(model_results, bounds, weights)`: the list of
per-record weighted scores is averaged with `np.mean` (sum divided by
length). -/
def calculate_model_score (model_results : List JudgmentRecord)
    (b : Bounds) (w : Weights) : ℚ :=
  (model_results.map (fun r => record_score r b w)).sum / model_results.length

/-- Spec-side definition: the dot product of a weight vector with a metric
vector, written as the claim words it. -/
def dotProduct (ws vs : List ℚ) : ℚ := (List.zipWith (· * ·) ws vs).sum

/-- Spec-side definition: the six normalized metrics of a record in the
claim's order (cost, latency, word_count, accuracy, safety, factuality),
with latency and cost inverted as `1 - normalized`. -/
def normalizedMetricVector (r : JudgmentRecord) (b : Bounds) : List ℚ :=
  [ 1 - normalize_value r.cost_usd b.cost_usd.min b.cost_usd.max,
    1 - normalize_value r.latency_ms b.latency_ms.min b.latency_ms.max,
    normalize_value r.words_count b.words_count.min b.words_count.max,
    normalize_value r.accuracy b.accuracy.min b.accuracy.max,
    normalize_value r.safety b.safety.min b.safety.max,
    normalize_value r.factuality b.factuality.min b.factuality.max ]

/-- Spec-side definition: the unweighted arithmetic mean of a list. -/
def arithmeticMean (xs : List ℚ) : ℚ := xs.sum / xs.length

/-- `max(model_scores.items(), key=lambda x: x[1])` — Python `max` over a
non-empty sequence keeps the first element and replaces it only when a
strictly greater key appears, so ties go to the earliest element. -/
def pyMaxBySnd (x : String × ℚ) (xs : List (String × ℚ)) : String × ℚ :=
  xs.foldl (fun best y => if y.2 > best.2 then y else best) x

/-- The winner selection of `find_winner` (src/4_find_the_winner.py line 81),
over the model-score mapping in insertion order; `none` on an empty mapping
(Python `max` raises there). -/
def find_winner_pair : List (String × ℚ) → Option (String × ℚ)
  | [] => none
  | x :: xs => some (pyMaxBySnd x xs)

/-! ### Helper lemmas about Python `max` -/

theorem pyMaxBySnd_cons (x y : String × ℚ) (xs : List (String × ℚ)) :
    pyMaxBySnd x (y :: xs) = pyMaxBySnd (if y.2 > x.2 then y else x) xs := by
  simp [pyMaxBySnd]

theorem pyMaxBySnd_ge (xs : List (String × ℚ)) (x : String × ℚ) :
    x.2 ≤ (pyMaxBySnd x xs).2 ∧ ∀ y ∈ xs, y.2 ≤ (pyMaxBySnd x xs).2 := by
  induction xs generalizing x with
  | nil =>
    refine ⟨le_refl _, ?_⟩
    intro y hy
    simp at hy
  | cons y ys ih =>
    rw [pyMaxBySnd_cons]
    have hx : x.2 ≤ (if y.2 > x.2 then y else x).2 := by
      by_cases h : y.2 > x.2
      · simp only [if_pos h]; exact le_of_lt h
      · simp only [if_neg h]; exact le_refl _
    have hy2 : y.2 ≤ (if y.2 > x.2 then y else x).2 := by
      by_cases h : y.2 > x.2
      · simp only [if_pos h]; exact le_refl _
      · simp only [if_neg h]; exact le_of_not_gt h
    refine ⟨le_trans hx (ih _).1, ?_⟩
    intro w hw
    rcases List.mem_cons.mp hw with hw | hw
    · subst hw; exact le_trans hy2 (ih _).1
    · exact (ih _).2 w hw

theorem pyMaxBySnd_first (xs : List (String × ℚ)) (x : String × ℚ) :
    ∃ pre post, x :: xs = pre ++ pyMaxBySnd x xs :: post ∧
      ∀ p ∈ pre, p.2 < (pyMaxBySnd x xs).2 := by
  induction xs generalizing x with
  | nil => exact ⟨[], [], rfl, by simp⟩
  | cons y ys ih =>
    rw [pyMaxBySnd_cons]
    by_cases h : y.2 > x.2
    · rw [if_pos h]
      obtain ⟨pre, post, hsplit, hlt⟩ := ih y
      refine ⟨x :: pre, post, ?_, ?_⟩
      · rw [List.cons_append, ← hsplit]
      · intro p hp
        rcases List.mem_cons.mp hp with hp | hp
        · subst hp
          exact lt_of_lt_of_le h (pyMaxBySnd_ge ys y).1
        · exact hlt p hp
    · rw [if_neg h]
      obtain ⟨pre, post, hsplit, hlt⟩ := ih x
      cases pre with
      | nil =>
        simp only [List.nil_append] at hsplit
        injection hsplit with hm hpost
        refine ⟨[], y :: ys, ?_, by simp⟩
        show x :: y :: ys = pyMaxBySnd x ys :: (y :: ys)
        rw [← hm]
      | cons p₀ pre' =>
        rw [List.cons_append] at hsplit
        injection hsplit with hx hys
        subst hx
        have hxlt : x.2 < (pyMaxBySnd x ys).2 := hlt x (by simp)
        set m := pyMaxBySnd x ys with hm
        refine ⟨x :: y :: pre', post, ?_, ?_⟩
        · rw [hys]
          simp
        · intro p hp
          rcases List.mem_cons.mp hp with hp | hp
          · subst hp; exact hxlt
          · rcases List.mem_cons.mp hp with hp | hp
            · subst hp; exact lt_of_le_of_lt (le_of_not_gt h) hxlt
            · exact hlt p (by simp [hp])

/-! ### Claim theorems for the scoring engine -/

/-- C4: `normalize_value` returns `(v - min) / (max - min)` when `min ≠ max`,
and exactly `1/2` whenever `min = max` regardless of `v`; in particular
`normalize_value 5 0 10 = 1/2`. -/
theorem C4_normalize_value_spec (v lo hi : ℚ) :
    (lo ≠ hi → normalize_value v lo hi = (v - lo) / (hi - lo)) ∧
    normalize_value v lo lo = 1/2 ∧
    normalize_value 5 0 10 = 1/2 := by
  refine ⟨?_, ?_, ?_⟩
  · intro h
    unfold normalize_value
    rw [if_neg (fun hh => h hh.symm)]
  · unfold normalize_value
    rw [if_pos rfl]
  · unfold normalize_value
    norm_num

/-- Witness for C4 at `v = 7, min = 2, max = 4` (and the degenerate
`min = max = 2` bound). -/
theorem C4_normalize_value_spec_witness :
    normalize_value 7 2 4 = (7 - 2) / (4 - 2) ∧
    normalize_value 7 2 2 = 1/2 ∧
    normalize_value 5 0 10 = 1/2 :=
  ⟨(C4_normalize_value_spec 7 2 4).1 (by norm_num),
   (C4_normalize_value_spec 7 2 4).2.1,
   (C4_normalize_value_spec 7 2 4).2.2⟩

/-- C2: a record's weighted score is the dot product of the fixed weights
(cost 0.25, latency 0.10, word_count 0.10, accuracy 0.30, safety 0.10,
factuality 0.15 — summing to 1) with the six normalized metrics, latency
and cost entering inverted as `1 - normalized`; the per-model score is the
unweighted arithmetic mean of the per-record scores. -/
theorem C2_weighted_score_spec (r : JudgmentRecord) (b : Bounds)
    (rs : List JudgmentRecord) (hrs : rs ≠ []) :
    record_score r b fixedWeights =
      dotProduct [25/100, 10/100, 10/100, 30/100, 10/100, 15/100]
        (normalizedMetricVector r b) ∧
    fixedWeights.cost + fixedWeights.latency + fixedWeights.word_count +
      fixedWeights.accuracy + fixedWeights.safety + fixedWeights.factuality = 1 ∧
    calculate_model_score rs b fixedWeights =
      arithmeticMean (rs.map (fun x => record_score x b fixedWeights)) := by
  refine ⟨?_, ?_, ?_⟩
  · simp only [record_score, dotProduct, normalizedMetricVector, fixedWeights,
      List.zipWith, List.sum_cons, List.sum_nil]
    ring
  · norm_num [fixedWeights]
  · simp only [calculate_model_score, arithmeticMean, List.length_map]

/-- Witness for C2 at a concrete record, bounds and singleton model list. -/
theorem C2_weighted_score_spec_witness :
    (([⟨"P1", 100, 2, 500, 4, 5, 3⟩] : List JudgmentRecord) ≠ []) ∧
    (record_score ⟨"P1", 100, 2, 500, 4, 5, 3⟩
        ⟨⟨50, 150⟩, ⟨1, 3⟩, ⟨400, 600⟩, ⟨3, 5⟩, ⟨4, 5⟩, ⟨2, 4⟩⟩ fixedWeights =
      dotProduct [25/100, 10/100, 10/100, 30/100, 10/100, 15/100]
        (normalizedMetricVector ⟨"P1", 100, 2, 500, 4, 5, 3⟩
          ⟨⟨50, 150⟩, ⟨1, 3⟩, ⟨400, 600⟩, ⟨3, 5⟩, ⟨4, 5⟩, ⟨2, 4⟩⟩) ∧
    fixedWeights.cost + fixedWeights.latency + fixedWeights.word_count +
      fixedWeights.accuracy + fixedWeights.safety + fixedWeights.factuality = 1 ∧
    calculate_model_score [⟨"P1", 100, 2, 500, 4, 5, 3⟩]
        ⟨⟨50, 150⟩, ⟨1, 3⟩, ⟨400, 600⟩, ⟨3, 5⟩, ⟨4, 5⟩, ⟨2, 4⟩⟩ fixedWeights =
      arithmeticMean (([⟨"P1", 100, 2, 500, 4, 5, 3⟩] : List JudgmentRecord).map
        (fun x => record_score x
          ⟨⟨50, 150⟩, ⟨1, 3⟩, ⟨400, 600⟩, ⟨3, 5⟩, ⟨4, 5⟩, ⟨2, 4⟩⟩ fixedWeights))) :=
  ⟨by simp,
   C2_weighted_score_spec ⟨"P1", 100, 2, 500, 4, 5, 3⟩
     ⟨⟨50, 150⟩, ⟨1, 3⟩, ⟨400, 600⟩, ⟨3, 5⟩, ⟨4, 5⟩, ⟨2, 4⟩⟩
     [⟨"P1", 100, 2, 500, 4, 5, 3⟩] (by simp)⟩

/-- C3: on a non-empty model-score mapping the declared winner attains the
maximal score, and it is the first maximal entry in the mapping's insertion
order: every entry before it scores strictly less. -/
theorem C3_winner_first_max (scores : List (String × ℚ)) (h : scores ≠ []) :
    ∃ w pre post, find_winner_pair scores = some w ∧
      scores = pre ++ w :: post ∧
      (∀ p ∈ scores, p.2 ≤ w.2) ∧
      (∀ p ∈ pre, p.2 < w.2) := by
  cases scores with
  | nil => cases h rfl
  | cons x xs =>
    obtain ⟨pre, post, hsplit, hlt⟩ := pyMaxBySnd_first xs x
    refine ⟨pyMaxBySnd x xs, pre, post, rfl, hsplit, ?_, hlt⟩
    intro p hp
    rcases List.mem_cons.mp hp with hp | hp
    · rw [hp]; exact (pyMaxBySnd_ge xs x).1
    · exact (pyMaxBySnd_ge xs x).2 p hp

/-- Witness for C3 on a mapping with a tie: the winner is the first entry
attaining the maximal score. -/
theorem C3_winner_first_max_witness :
    ([("m1", (1:ℚ)/2), ("m2", 3/4), ("m3", 3/4)] ≠ ([] : List (String × ℚ))) ∧
    (∃ w pre post,
      find_winner_pair [("m1", (1:ℚ)/2), ("m2", 3/4), ("m3", 3/4)] = some w ∧
      [("m1", (1:ℚ)/2), ("m2", 3/4), ("m3", 3/4)] = pre ++ w :: post ∧
      (∀ p ∈ [("m1", (1:ℚ)/2), ("m2", 3/4), ("m3", 3/4)], p.2 ≤ w.2) ∧
      (∀ p ∈ pre, p.2 < w.2)) ∧
    find_winner_pair [("m1", (1:ℚ)/2), ("m2", 3/4), ("m3", 3/4)] = some ("m2", 3/4) :=
  ⟨by simp,
   C3_winner_first_max [("m1", (1:ℚ)/2), ("m2", 3/4), ("m3", 3/4)] (by simp),
   by
    simp only [find_winner_pair, pyMaxBySnd, List.foldl_cons, List.foldl_nil]
    norm_num⟩

/-! ## Store merge (src/1_generate_content.py lines 181-191 and
src/3_ai_judge.py lines 173-183)

Both stages merge a freshly built record into the model's sequence with the
same scan: enumerate the existing records, replace the first record whose
`id` equals the incoming record's `id`, and append at the end if no record
matched. -/

/-- A generation record as built in `main` of src/1_generate_content.py
(lines 169-179). -/
structure GenRecord where
  id : String
  title : String
  keywords : List String
  prompt_tokens : ℕ
  completion_tokens : ℕ
  total_tokens : ℕ
  latency_ms : ℕ
  cost_usd : ℚ
  response : String
  deriving Repr, DecidableEq

/-- The replace-or-append scan shared by the Generation and Judge stages,
parametric in the record type and its id projection. -/
def upsertById {α : Type} (idOf : α → String) : List α → α → List α
  | [], r => [r]
  | x :: xs, r => if idOf x = idOf r then r :: xs else x :: upsertById idOf xs r

/-- The store merge of the Generation Stage (src/1_generate_content.py
lines 181-191). -/
def upsertGen (store : List GenRecord) (r : GenRecord) : List GenRecord :=
  upsertById GenRecord.id store r

/-- The store merge of the Judge Stage (src/3_ai_judge.py lines 173-183). -/
def upsertJudge (store : List JudgmentRecord) (r : JudgmentRecord) :
    List JudgmentRecord :=
  upsertById JudgmentRecord.id store r

theorem upsertById_map_of_mem {α : Type} (idOf : α → String) (r : α) :
    ∀ s : List α, idOf r ∈ s.map idOf →
      (upsertById idOf s r).map idOf = s.map idOf := by
  intro s
  induction s with
  | nil => intro h; simp at h
  | cons x xs ih =>
    intro h
    by_cases hx : idOf x = idOf r
    · simp [upsertById, hx]
    · have hmem : idOf r ∈ xs.map idOf := by
        rw [List.map_cons] at h
        rcases List.mem_cons.mp h with h0 | h0
        · exact absurd h0.symm hx
        · exact h0
      simp [upsertById, hx, ih hmem]

theorem upsertById_append_of_not_mem {α : Type} (idOf : α → String) (r : α) :
    ∀ s : List α, idOf r ∉ s.map idOf → upsertById idOf s r = s ++ [r] := by
  intro s
  induction s with
  | nil => intro _; rfl
  | cons x xs ih =>
    intro h
    have hx : idOf x ≠ idOf r := by
      intro hh
      exact h (by simp [hh])
    have hmem : idOf r ∉ xs.map idOf := by
      intro hh
      exact h (by simp [hh])
    simp [upsertById, hx, ih hmem]

theorem upsertById_replace_at_position {α : Type} (idOf : α → String) (r x : α)
    (post : List α) (hx : idOf x = idOf r) :
    ∀ pre : List α, idOf r ∉ pre.map idOf →
      upsertById idOf (pre ++ x :: post) r = pre ++ r :: post := by
  intro pre
  induction pre with
  | nil => intro _; simp [upsertById, hx]
  | cons p pre' ih =>
    intro h
    have hp : idOf p ≠ idOf r := by
      intro hh
      exact h (by simp [hh])
    have hmem : idOf r ∉ pre'.map idOf := by
      intro hh
      exact h (by simp [hh])
    simp [upsertById, hp, ih hmem]

theorem upsertById_nodup {α : Type} (idOf : α → String) (r : α) (s : List α)
    (hnd : (s.map idOf).Nodup) : ((upsertById idOf s r).map idOf).Nodup := by
  by_cases h : idOf r ∈ s.map idOf
  · rw [upsertById_map_of_mem idOf r s h]
    exact hnd
  · rw [upsertById_append_of_not_mem idOf r s h]
    rw [List.map_append]
    exact List.Nodup.append hnd (List.nodup_singleton _) (by simpa using h)

theorem upsertById_length_of_mem {α : Type} (idOf : α → String) (r : α)
    (s : List α) (h : idOf r ∈ s.map idOf) :
    (upsertById idOf s r).length = s.length := by
  have := congrArg List.length (upsertById_map_of_mem idOf r s h)
  simpa using this

theorem foldl_upsertById_map {α : Type} (idOf : α → String) :
    ∀ (rs : List α) (s : List α), (∀ x ∈ rs, idOf x ∈ s.map idOf) →
      ((rs.foldl (upsertById idOf) s).map idOf) = s.map idOf := by
  intro rs
  induction rs with
  | nil => intro s _; rfl
  | cons r rs' ih =>
    intro s h
    have hr : idOf r ∈ s.map idOf := h r (by simp)
    have hmap := upsertById_map_of_mem idOf r s hr
    rw [List.foldl_cons, ih (upsertById idOf s r) (fun x hx => by
      rw [hmap]; exact h x (by simp [hx])), hmap]

/-- C1: the store merge of the Generation and Judge stages preserves
uniqueness of prompt ids in a model's sequence; a record whose id is present
is replaced at its existing position, a fresh id is appended at the end; and
re-running a stage with an unchanged prompt set (every incoming id already
in the store) leaves the record count unchanged and the ids duplicate-free. -/
theorem C1_store_merge
    (store : List GenRecord) (r : GenRecord)
    (jstore : List JudgmentRecord) (jr : JudgmentRecord)
    (hnd : (store.map GenRecord.id).Nodup)
    (hjnd : (jstore.map JudgmentRecord.id).Nodup) :
    ((upsertGen store r).map GenRecord.id).Nodup ∧
    (∀ x pre post, store = pre ++ x :: post → x.id = r.id →
        r.id ∉ pre.map GenRecord.id → upsertGen store r = pre ++ r :: post) ∧
    (r.id ∉ store.map GenRecord.id → upsertGen store r = store ++ [r]) ∧
    (∀ rs : List GenRecord, (∀ x ∈ rs, x.id ∈ store.map GenRecord.id) →
        (rs.foldl upsertGen store).length = store.length ∧
        ((rs.foldl upsertGen store).map GenRecord.id).Nodup) ∧
    ((upsertJudge jstore jr).map JudgmentRecord.id).Nodup ∧
    (∀ x pre post, jstore = pre ++ x :: post → x.id = jr.id →
        jr.id ∉ pre.map JudgmentRecord.id → upsertJudge jstore jr = pre ++ jr :: post) ∧
    (jr.id ∉ jstore.map JudgmentRecord.id → upsertJudge jstore jr = jstore ++ [jr]) := by
  refine ⟨upsertById_nodup _ r store hnd, ?_, ?_, ?_, upsertById_nodup _ jr jstore hjnd, ?_, ?_⟩
  · intro x pre post hs hx hpre
    rw [hs]
    exact upsertById_replace_at_position GenRecord.id r x post hx pre hpre
  · intro h
    exact upsertById_append_of_not_mem GenRecord.id r store h
  · intro rs h
    have hfold : rs.foldl upsertGen store = rs.foldl (upsertById GenRecord.id) store := rfl
    have hmap := foldl_upsertById_map GenRecord.id rs store h
    rw [hfold]
    constructor
    · have := congrArg List.length hmap
      simpa using this
    · rw [hmap]
      exact hnd
  · intro x pre post hs hx hpre
    rw [hs]
    exact upsertById_replace_at_position JudgmentRecord.id jr x post hx pre hpre
  · intro h
    exact upsertById_append_of_not_mem JudgmentRecord.id jr jstore h

/-- Witness for C1 on concrete two-record generation and one-record judgment
stores. -/
theorem C1_store_merge_witness :
    (([⟨"P1", "t1", ["k"], 1, 2, 3, 4, 5, "a"⟩,
       ⟨"P2", "t2", ["k"], 1, 2, 3, 4, 5, "b"⟩] : List GenRecord).map
         GenRecord.id).Nodup ∧
    (([⟨"P1", 10, 1, 100, 4, 5, 3⟩] : List JudgmentRecord).map
         JudgmentRecord.id).Nodup ∧
    (((upsertGen [⟨"P1", "t1", ["k"], 1, 2, 3, 4, 5, "a"⟩,
        ⟨"P2", "t2", ["k"], 1, 2, 3, 4, 5, "b"⟩]
        ⟨"P1", "t1", ["k"], 9, 9, 18, 7, 6, "c"⟩).map GenRecord.id).Nodup) ∧
    upsertGen [⟨"P1", "t1", ["k"], 1, 2, 3, 4, 5, "a"⟩,
        ⟨"P2", "t2", ["k"], 1, 2, 3, 4, 5, "b"⟩]
        ⟨"P1", "t1", ["k"], 9, 9, 18, 7, 6, "c"⟩ =
      [⟨"P1", "t1", ["k"], 9, 9, 18, 7, 6, "c"⟩,
       ⟨"P2", "t2", ["k"], 1, 2, 3, 4, 5, "b"⟩] := by
  refine ⟨by decide, by decide, ?_, ?_⟩
  · exact (C1_store_merge
      [⟨"P1", "t1", ["k"], 1, 2, 3, 4, 5, "a"⟩, ⟨"P2", "t2", ["k"], 1, 2, 3, 4, 5, "b"⟩]
      ⟨"P1", "t1", ["k"], 9, 9, 18, 7, 6, "c"⟩
      [⟨"P1", 10, 1, 100, 4, 5, 3⟩] ⟨"P1", 10, 1, 100, 4, 5, 3⟩
      (by decide) (by decide)).1
  · exact (C1_store_merge
      [⟨"P1", "t1", ["k"], 1, 2, 3, 4, 5, "a"⟩, ⟨"P2", "t2", ["k"], 1, 2, 3, 4, 5, "b"⟩]
      ⟨"P1", "t1", ["k"], 9, 9, 18, 7, 6, "c"⟩
      [⟨"P1", 10, 1, 100, 4, 5, 3⟩] ⟨"P1", 10, 1, 100, 4, 5, 3⟩
      (by decide) (by decide)).2.1
      ⟨"P1", "t1", ["k"], 1, 2, 3, 4, 5, "a"⟩ []
      [⟨"P2", "t2", ["k"], 1, 2, 3, 4, 5, "b"⟩] rfl rfl (by decide)

/-! ## Python string primitives shared by the embedded stages -/

/-- The whitespace characters of Python `str.strip` / `\s` (ASCII range). -/
def pyIsSpace (c : Char) : Bool :=
  c == ' ' || c == '\t' || c == '\n' || c == '\r' || c == '\x0b' || c == '\x0c'

/-- Python `str.strip()`: drop leading and trailing whitespace. -/
def pyStrip (l : List Char) : List Char :=
  ((l.dropWhile pyIsSpace).reverse.dropWhile pyIsSpace).reverse

/-- Python `str.lower()` (ASCII case folding). -/
def pyLower (l : List Char) : List Char := l.map Char.toLower

/-- Split at the first occurrence of `c`: `some (before, after)`, or `none`
when `c` does not occur (Python `line.split(c, 1)` succeeding vs not). -/
def splitFirstAtChar (c : Char) : List Char → Option (List Char × List Char)
  | [] => none
  | x :: xs =>
    if x = c then some ([], xs)
    else (splitFirstAtChar c xs).map (fun p => (x :: p.1, p.2))

/-- Python `text.split(sep)` for a one-character separator: empty segments
are kept, the empty string yields one empty segment. -/
def splitOnChar (sep : Char) : List Char → List (List Char)
  | [] => [[]]
  | c :: rest =>
    match splitOnChar sep rest with
    | [] => [[]]
    | seg :: segs => if c = sep then [] :: seg :: segs else (c :: seg) :: segs

/-- Value of a run of decimal digits. -/
def digitsVal (ds : List Char) : Int :=
  ds.foldl (fun a c => a * 10 + ((c.toNat : Int) - ('0'.toNat : Int))) 0

/-- Python `int(s)` on an already stripped string, modelled for plain decimal
forms (optional sign, decimal digits): `none` is the `ValueError` outcome. -/
def pyIntParse : List Char → Option Int
  | [] => none
  | '-' :: ds => if ds ≠ [] ∧ ds.all Char.isDigit then some (-(digitsVal ds)) else none
  | '+' :: ds => if ds ≠ [] ∧ ds.all Char.isDigit then some (digitsVal ds) else none
  | ds => if ds ≠ [] ∧ ds.all Char.isDigit then some (digitsVal ds) else none

/-! ## Judge Stage (src/3_ai_judge.py) -/

/-- The judge family used to score a piece of content. -/
inductive JudgeFamily
  | openaiJudge
  | geminiJudge
  deriving Repr, DecidableEq

/-- The analyzer dispatch of `judge_content` (src/3_ai_judge.py lines
148-152): a generating model whose name starts with "gemini" is judged with
`analyze_with_openai`, anything else with `analyze_with_gemini`. -/
def chooseJudge (model : String) : JudgeFamily :=
  if List.isPrefixOf "gemini".data model.data then JudgeFamily.openaiJudge
  else JudgeFamily.geminiJudge

/-- C8: the judge capability is cross-provider — models whose identifier
starts with "gemini" are judged by the OpenAI judge, all other models by the
Gemini judge. -/
theorem C8_cross_provider_judge (m : String) :
    (chooseJudge m = JudgeFamily.openaiJudge ↔ ∃ rest, m.data = "gemini".data ++ rest) ∧
    (chooseJudge m = JudgeFamily.geminiJudge ↔ ¬ ∃ rest, m.data = "gemini".data ++ rest) := by
  have hpre : List.isPrefixOf "gemini".data m.data = true ↔
      ∃ rest, m.data = "gemini".data ++ rest := by
    rw [List.isPrefixOf_iff_prefix]
    constructor
    · rintro ⟨t, ht⟩; exact ⟨t, ht.symm⟩
    · rintro ⟨t, ht⟩; exact ⟨t, ht.symm⟩
  constructor
  · constructor
    · intro h
      by_contra hne
      have : List.isPrefixOf "gemini".data m.data = false := by
        rcases Bool.eq_false_or_eq_true (List.isPrefixOf "gemini".data m.data) with h0 | h0
        · exact absurd (hpre.mp h0) hne
        · exact h0
      simp [chooseJudge, this] at h
    · intro h
      simp [chooseJudge, hpre.mpr h]
  · constructor
    · intro h hex
      simp [chooseJudge, hpre.mpr hex] at h
    · intro hne
      have : List.isPrefixOf "gemini".data m.data = false := by
        rcases Bool.eq_false_or_eq_true (List.isPrefixOf "gemini".data m.data) with h0 | h0
        · exact absurd (hpre.mp h0) hne
        · exact h0
      simp [chooseJudge, this]

/-- Witness for C8 at the two model identifiers of the repository: the
gemini generator is judged by the OpenAI judge, the o4-mini generator by
the Gemini judge. -/
theorem C8_cross_provider_judge_witness :
    chooseJudge "gemini-2.5-flash-preview-05-20" = JudgeFamily.openaiJudge ∧
    ¬ ∃ rest, "o4-mini".data = "gemini".data ++ rest :=
  ⟨(C8_cross_provider_judge "gemini-2.5-flash-preview-05-20").1.mpr
     ⟨"-2.5-flash-preview-05-20".data, by decide⟩,
   (C8_cross_provider_judge "o4-mini").2.mp (by decide)⟩

/-- A parsed analysis result: a Python dict whose keys may be absent. -/
structure AnalysisDict where
  accuracy : Option Int
  safety : Option Int
  factuality : Option Int
  tone : Option (List Char)
  deriving Repr, DecidableEq

/-- The dict with no keys set (Python `result = {}`). -/
def emptyAnalysis : AnalysisDict := ⟨none, none, none, none⟩

/-- The total-failure sentinel `{'accuracy': 0, 'safety': 0, 'factuality': 0,
'tone': 'unknown'}` used throughout src/3_ai_judge.py. -/
def sentinelAnalysis : AnalysisDict :=
  ⟨some 0, some 0, some 0, some "unknown".data⟩

/-- One iteration of the line loop of `parse_analysis` (src/3_ai_judge.py
lines 102-114): lines without a colon are skipped; otherwise split on the
first colon, strip and lower-case the key, strip the value; score keys parse
the value as an int defaulting to 0 on `ValueError`; `tone` stores the value
verbatim. -/
def parseAnalysisLine (d : AnalysisDict) (line : List Char) : AnalysisDict :=
  match splitFirstAtChar ':' line with
  | none => d
  | some (rawKey, rawValue) =>
    let key := pyLower (pyStrip rawKey)
    let value := pyStrip rawValue
    if key = "accuracy".data then { d with accuracy := some ((pyIntParse value).getD 0) }
    else if key = "safety".data then { d with safety := some ((pyIntParse value).getD 0) }
    else if key = "factuality".data then { d with factuality := some ((pyIntParse value).getD 0) }
    else if key = "tone".data then { d with tone := some value }
    else d

/-- `parse_analysis(text)` (src/3_ai_judge.py lines 94-123): empty text
raises `ValueError`, which the enclosing handler turns into the sentinel;
otherwise the stripped text is split on newlines and folded through the line
parser starting from the empty dict. -/
def parse_analysis (text : List Char) : AnalysisDict :=
  if text = [] then sentinelAnalysis
  else (splitOnChar '\n' (pyStrip text)).foldl parseAnalysisLine emptyAnalysis

/-- The three ways a judge capability call can come back, as distinguished by
`analyze_with_gemini` / `analyze_with_openai`. -/
inductive JudgeCallOutcome
  | ok (text : List Char)
  | emptyResponse
  | exc
  deriving Repr, DecidableEq

/-- `analyze_with_gemini` / `analyze_with_openai` (src/3_ai_judge.py lines
12-92): a usable response text is parsed; an empty response or an exception
yields the sentinel dict. -/
def analyzeResult : JudgeCallOutcome → AnalysisDict
  | JudgeCallOutcome.ok t => parse_analysis t
  | JudgeCallOutcome.emptyResponse => sentinelAnalysis
  | JudgeCallOutcome.exc => sentinelAnalysis

/-- A record of the analysis store (content_with_analysis.json) as read by
`judge_content`. -/
structure AnalysisStageRecord where
  id : String
  title : String
  keywords : List String
  prompt_tokens : ℕ
  completion_tokens : ℕ
  total_tokens : ℕ
  latency_ms : ℕ
  cost_usd : ℚ
  response : String
  words_count : ℕ
  broken_links : List String
  deriving Repr, DecidableEq

/-- A record of the judgment store (content_with_judgment.json). -/
structure JudgeStoreRecord where
  id : String
  title : String
  keywords : List String
  prompt_tokens : ℕ
  completion_tokens : ℕ
  total_tokens : ℕ
  latency_ms : ℕ
  cost_usd : ℚ
  response : String
  words_count : ℕ
  broken_links : List String
  accuracy : Int
  safety : Int
  factuality : Int
  tone : List Char
  deriving Repr, DecidableEq

/-- Python `analysis[key]`: a missing key raises `KeyError(key)`. -/
def dictLookup {β : Type} (v : Option β) (key : String) : Except String β :=
  match v with
  | some x => Except.ok x
  | none => Except.error key

/-- The judgment-record construction of `judge_content` (src/3_ai_judge.py
lines 155-171): every field of the source record is copied and the four
analysis keys are read with mandatory dict subscripts. -/
def mkJudgmentRecord (src : AnalysisStageRecord) (d : AnalysisDict) :
    Except String JudgeStoreRecord := do
  let acc ← dictLookup d.accuracy "accuracy"
  let saf ← dictLookup d.safety "safety"
  let fac ← dictLookup d.factuality "factuality"
  let ton ← dictLookup d.tone "tone"
  Except.ok
    { id := src.id, title := src.title, keywords := src.keywords,
      prompt_tokens := src.prompt_tokens, completion_tokens := src.completion_tokens,
      total_tokens := src.total_tokens, latency_ms := src.latency_ms,
      cost_usd := src.cost_usd, response := src.response,
      words_count := src.words_count, broken_links := src.broken_links,
      accuracy := acc, safety := saf, factuality := fac, tone := ton }

/-- C5 (code divergence): an exception or an empty judge response does give
the all-zero / "unknown" sentinel and it propagates into the stored record;
but a non-empty response with no parseable `key: value` line leaves the
parse result as the empty dict, and the record construction then fails with
`KeyError accuracy` — the batch crashes instead of storing the sentinel. -/
theorem C5_unparseable_output_crashes :
    analyzeResult JudgeCallOutcome.exc = sentinelAnalysis ∧
    analyzeResult JudgeCallOutcome.emptyResponse = sentinelAnalysis ∧
    parse_analysis [] = sentinelAnalysis ∧
    (∀ src : AnalysisStageRecord,
      mkJudgmentRecord src (analyzeResult JudgeCallOutcome.exc) =
        Except.ok
          { id := src.id, title := src.title, keywords := src.keywords,
            prompt_tokens := src.prompt_tokens,
            completion_tokens := src.completion_tokens,
            total_tokens := src.total_tokens, latency_ms := src.latency_ms,
            cost_usd := src.cost_usd, response := src.response,
            words_count := src.words_count, broken_links := src.broken_links,
            accuracy := 0, safety := 0, factuality := 0,
            tone := "unknown".data }) ∧
    parse_analysis "looks fine to me".data = emptyAnalysis ∧
    (∀ src : AnalysisStageRecord,
      mkJudgmentRecord src (parse_analysis "looks fine to me".data) =
        Except.error "accuracy") := by
  refine ⟨rfl, rfl, rfl, fun src => rfl, by decide, fun src => rfl⟩

/-! ## QC Revise Loop (src/5_live_qc.py) -/

/-- The title line of the `user_instruction` literal in `generate_article`
(src/5_live_qc.py lines 43-51). -/
def qcInstructionTitleLine : String :=
  "Title: \"Introduction to Python Object Oriented Programming\"\n"

/-- The rest of the instruction literal before the interpolated tip: length
constraint, source requirement, keyword list, safety line, tone line, and
the `"\n- "` that introduces the tip. -/
def qcInstructionRest : String :=
  "- Write a 1,500 - 2,500 word article.\n" ++
  "- Cite at least two reputable sources with URLs.\n" ++
  "- Cover these keywords: python, object oriented programming, OOP, " ++
  "classes, objects, inheritance, polymorphism, encapsulation.\n" ++
  "- Avoid unsafe, biased, or sensitive content.\n" ++
  "- Use a warm, conversational tone with a light joke or analogy." ++
  "\n- "

/-- Everything of the instruction literal that precedes the interpolated
tip. -/
def qcInstructionPreamble : String := qcInstructionTitleLine ++ qcInstructionRest

/-- `user_instruction` in `generate_article`: the adjacent string literals
and the final f-string fuse into one expression, and the trailing
`if tip else ""` conditional governs that whole expression — so a falsy tip
(`None` or the empty string) yields the empty string, and a truthy tip
yields the full preamble followed by the tip text. -/
def user_instruction (tip : Option String) : String :=
  match tip with
  | none => ""
  | some t => if t = "" then "" else qcInstructionPreamble ++ t

/-- The structured QC verdict (the `QCResult` pydantic model). -/
structure QCVerdict where
  verdict : String
  tip : String
  deriving Repr, DecidableEq

/-- The capability outcomes a run of `main` (src/5_live_qc.py lines 145-186)
is exposed to: `gen tip` is the result of `generate_article` for a given tip
argument after its internal retries (`none` = all retries failed), and `qc
content` is the result of `check_quality` after its retries. -/
structure QCEnv where
  gen : Option String → Option String
  qc : String → Option QCVerdict

/-- The sequence of tip arguments with which `main` invokes
`generate_article` over one run. -/
def qcGenCalls (env : QCEnv) : List (Option String) :=
  match env.gen none with
  | none => [none]
  | some content =>
    match env.qc content with
    | none => [none]
    | some qc1 =>
      if qc1.verdict = "APPROVED" then [none]
      else [none, some qc1.tip]

/-- The `(content, status)` pair persisted by `save_results` over one run of
`main`, if any. -/
def qcSaved (env : QCEnv) : Option (String × String) :=
  match env.gen none with
  | none => none
  | some content =>
    match env.qc content with
    | none => none
    | some qc1 =>
      if qc1.verdict = "APPROVED" then some (content, "approved")
      else
        match env.gen (some qc1.tip) with
        | none => some (content, "rejected_no_revision")
        | some revised =>
          match env.qc revised with
          | none => none
          | some qc2 =>
            if qc2.verdict = "APPROVED" then some (revised, "approved_revised")
            else some (revised, "rejected_revised")

/-- C9: for a first draft that the quality check rejects with a non-empty
tip, `main` performs exactly one regeneration, whose user instruction
contains the tip text verbatim; and if that regeneration fails all retries,
the persisted status is "rejected_no_revision" (with the original draft). -/
theorem C9_qc_revise_loop (env : QCEnv) (c : String) (r : QCVerdict)
    (hgen : env.gen none = some c) (hqc : env.qc c = some r)
    (hrej : r.verdict ≠ "APPROVED") (htip : r.tip ≠ "") :
    qcGenCalls env = [none, some r.tip] ∧
    (∃ pre post, (user_instruction (some r.tip)).data =
      pre ++ r.tip.data ++ post) ∧
    (env.gen (some r.tip) = none →
      qcSaved env = some (c, "rejected_no_revision")) := by
  refine ⟨?_, ?_, ?_⟩
  · simp [qcGenCalls, hgen, hqc, hrej]
  · refine ⟨qcInstructionPreamble.data, [], ?_⟩
    have h1 : user_instruction (some r.tip) = qcInstructionPreamble ++ r.tip := by
      show (if r.tip = "" then "" else qcInstructionPreamble ++ r.tip) =
        qcInstructionPreamble ++ r.tip
      exact if_neg htip
    rw [h1, String.data_append, List.append_nil]
  · intro hfail
    simp [qcSaved, hgen, hqc, hrej, hfail]

/-- Witness for C9 on a concrete environment whose first draft is rejected
with tip "add sources" and whose regeneration fails. -/
theorem C9_qc_revise_loop_witness :
    ((fun t : Option String => match t with
        | none => some "draft" | some _ => none) none = some "draft") ∧
    (qcGenCalls ⟨fun t => match t with | none => some "draft" | some _ => none,
        fun _ => some ⟨"REJECTED", "add sources"⟩⟩ = [none, some "add sources"] ∧
     (∃ pre post, (user_instruction (some "add sources")).data =
        pre ++ "add sources".data ++ post) ∧
     ((fun t : Option String => match t with
        | none => some "draft" | some _ => none) (some "add sources") = none →
      qcSaved ⟨fun t => match t with | none => some "draft" | some _ => none,
        fun _ => some ⟨"REJECTED", "add sources"⟩⟩ =
        some ("draft", "rejected_no_revision"))) :=
  ⟨rfl,
   C9_qc_revise_loop
     ⟨fun t => match t with | none => some "draft" | some _ => none,
      fun _ => some ⟨"REJECTED", "add sources"⟩⟩
     "draft" ⟨"REJECTED", "add sources"⟩ rfl rfl (by decide) (by decide)⟩

/-- C10: with no tip (the initial generation) the user instruction is
exactly the empty string — the conditional covers the entire concatenated
literal — and the title/keyword/length text appears only for a non-empty
tip. -/
theorem C10_instruction_empty_without_tip :
    user_instruction none = "" ∧
    user_instruction (some "") = "" ∧
    (∀ t : String, t ≠ "" →
      ∃ rest, (user_instruction (some t)).data =
        "Title: \"Introduction to Python Object Oriented Programming\"\n".data ++ rest) := by
  refine ⟨rfl, rfl, ?_⟩
  intro t ht
  refine ⟨(qcInstructionRest ++ t).data, ?_⟩
  have h1 : user_instruction (some t) = qcInstructionPreamble ++ t := by
    show (if t = "" then "" else qcInstructionPreamble ++ t) =
      qcInstructionPreamble ++ t
    exact if_neg ht
  rw [h1]
  show ((qcInstructionTitleLine ++ qcInstructionRest) ++ t).data =
    qcInstructionTitleLine.data ++ (qcInstructionRest ++ t).data
  rw [String.append_assoc, String.data_append]

/-- Witness for C10 at the concrete tip "x". -/
theorem C10_instruction_empty_without_tip_witness :
    user_instruction none = "" ∧
    (∃ rest, (user_instruction (some "x")).data =
      "Title: \"Introduction to Python Object Oriented Programming\"\n".data ++ rest) :=
  ⟨C10_instruction_empty_without_tip.1,
   C10_instruction_empty_without_tip.2.2 "x" (by decide)⟩

/-! ## Generation Stage failure behaviour (src/1_generate_content.py)

`call_openai` wraps the API call in try/except, but its handler first
evaluates `print(resp.json())`: when the `openai.responses.create` call
itself raised, `resp` was never bound and the handler raises
`UnboundLocalError`. When an exception occurs after `resp` is bound, the
handler returns `(None, None)` — and `main` (lines 158-179) then evaluates
`usage["prompt_tokens"]` unconditionally, raising `TypeError` because
`usage` is `None`. The per-prompt loop of `main` has no exception handling
(and `call_gemini` none at all), so either error aborts the whole batch. -/

/-- Token usage as reported by a successful capability call. -/
structure Usage where
  prompt_tokens : ℕ
  completion_tokens : ℕ
  total_tokens : ℕ
  deriving Repr, DecidableEq

/-- How one generation capability call can turn out. -/
inductive GenCallOutcome
  | ok (text : String) (usage : Usage)
  | raiseInCreate      -- the API call itself raises
  | raiseAfterResp     -- an exception after `resp` is bound
  deriving Repr, DecidableEq

/-- Uncaught Python exceptions of the generation loop. -/
inductive PyError
  | unboundLocalError
  | typeErrorNoneSubscript
  deriving Repr, DecidableEq

/-- `call_openai` (src/1_generate_content.py lines 70-89): success returns
`(text, usage)`; an exception in the create call makes the handler itself
raise (`resp` unbound in `print(resp.json())`); an exception after `resp`
is bound is swallowed and `(None, None)` is returned. -/
def call_openai : GenCallOutcome → Except PyError (Option String × Option Usage)
  | GenCallOutcome.ok t u => Except.ok (some t, some u)
  | GenCallOutcome.raiseInCreate => Except.error PyError.unboundLocalError
  | GenCallOutcome.raiseAfterResp => Except.ok (none, none)

/-- `usage["prompt_tokens"]` in `main` (line 165): subscripting `None`
raises `TypeError`. -/
def subscriptUsage (u : Option Usage) : Except PyError Usage :=
  match u with
  | none => Except.error PyError.typeErrorNoneSubscript
  | some usage => Except.ok usage

/-- One iteration of the per-prompt loop of `main` for a non-gemini model:
call the capability, then read the usage fields. -/
def generationStep (o : GenCallOutcome) : Except PyError Usage := do
  let r ← call_openai o
  subscriptUsage r.2

/-- The per-prompt loop of `main` (lines 144-191): no per-prompt exception
handling, so the first failing prompt aborts the remaining prompts. -/
def generationBatch : List GenCallOutcome → Except PyError (List Usage)
  | [] => Except.ok []
  | o :: os => do
    let u ← generationStep o
    let rest ← generationBatch os
    Except.ok (u :: rest)

theorem generationBatch_ok_no_failure :
    ∀ (outcomes : List GenCallOutcome) (us : List Usage),
      generationBatch outcomes = Except.ok us →
      ∀ o ∈ outcomes, o ≠ GenCallOutcome.raiseInCreate ∧
        o ≠ GenCallOutcome.raiseAfterResp := by
  intro outcomes
  induction outcomes with
  | nil => intro us _ o ho; simp at ho
  | cons o os ih =>
    intro us hok p hp
    cases o with
    | ok t u =>
      rcases List.mem_cons.mp hp with hp | hp
      · subst hp
        exact ⟨fun h => GenCallOutcome.noConfusion h,
               fun h => GenCallOutcome.noConfusion h⟩
      · cases hos : generationBatch os with
        | error e =>
          have hred : generationBatch (GenCallOutcome.ok t u :: os) =
              Except.bind (generationBatch os)
                (fun rest => Except.ok (u :: rest)) := rfl
          rw [hred, hos] at hok
          simp [Except.bind] at hok
        | ok us' => exact ih us' hos p hp
    | raiseInCreate =>
      have : generationBatch (GenCallOutcome.raiseInCreate :: os) =
          Except.error PyError.unboundLocalError := rfl
      rw [this] at hok
      cases hok
    | raiseAfterResp =>
      have : generationBatch (GenCallOutcome.raiseAfterResp :: os) =
          Except.error PyError.typeErrorNoneSubscript := rfl
      rw [this] at hok
      cases hok

/-- C6 (code divergence): a failing generation call does not lead to the
prompt being skipped — the batch aborts. An exception inside the create
call crashes with `UnboundLocalError` from the error handler itself; an
exception after the response is bound yields `(None, None)` and `main`
crashes with `TypeError` when subscripting the `None` usage; a batch only
completes when no capability call failed. -/
theorem C6_generation_failure_aborts_batch :
    generationBatch [GenCallOutcome.ok "a" ⟨1, 2, 3⟩, GenCallOutcome.raiseInCreate,
        GenCallOutcome.ok "b" ⟨4, 5, 9⟩] =
      Except.error PyError.unboundLocalError ∧
    generationBatch [GenCallOutcome.raiseAfterResp, GenCallOutcome.ok "b" ⟨4, 5, 9⟩] =
      Except.error PyError.typeErrorNoneSubscript ∧
    (∀ (outcomes : List GenCallOutcome) (us : List Usage),
      generationBatch outcomes = Except.ok us →
      ∀ o ∈ outcomes, o ≠ GenCallOutcome.raiseInCreate ∧
        o ≠ GenCallOutcome.raiseAfterResp) :=
  ⟨rfl, rfl, generationBatch_ok_no_failure⟩

/-- Witness for C6: a batch whose single call succeeded did contain no
failing outcome. -/
theorem C6_generation_failure_aborts_batch_witness :
    generationBatch [GenCallOutcome.ok "a" ⟨1, 2, 3⟩] = Except.ok [⟨1, 2, 3⟩] ∧
    (∀ o ∈ [GenCallOutcome.ok "a" ⟨1, 2, 3⟩], o ≠ GenCallOutcome.raiseInCreate ∧
      o ≠ GenCallOutcome.raiseAfterResp) :=
  ⟨rfl, C6_generation_failure_aborts_batch.2.2
    [GenCallOutcome.ok "a" ⟨1, 2, 3⟩] [⟨1, 2, 3⟩] rfl⟩

/-! ## Word counting (src/2_content_analysis.py, `count_words`)

`count_words` applies four `re.sub` passes and a whitespace split:
(1) `\[([^\]]+)\]\([^\)]+\)` → `\1` (markdown links keep their text);
(2) the URL pattern → `""` (bare URLs removed);
(3) `[^\w\s]` → `" "`;
(4) `\s+` → `" "`, then `.strip()` and `.split()`.
The regex passes are embedded as left-to-right scanners with the same
leftmost-match semantics; `\w` is modelled over its ASCII fragment
(`[A-Za-z0-9_]`), which covers all inputs considered here. The scanners
take a fuel argument (structural recursion) and the wrappers pass
`length + 1`, which the congruence lemmas below show is always enough. -/

theorem length_dropWhile_le {α : Type} (p : α → Bool) (l : List α) :
    (l.dropWhile p).length ≤ l.length :=
  (List.dropWhile_suffix p).length_le

/-- Python `\w` over ASCII: letters, digits, underscore. -/
def pyIsWordChar (c : Char) : Bool := c.isAlphanum || c == '_'

/-- The character set matched by one repetition of the URL pattern
`(?:[a-zA-Z]|[0-9]|[$-_@.&+]|[!*\\(\\),]|(?:%[0-9a-fA-F][0-9a-fA-F]))+`:
the class `[$-_@.&+]` is the byte range 0x24-0x5F (which already contains
the digits, the upper-case letters and every listed punctuation except
`!`), so the union is `!`, 0x24-0x5F, and the lower-case letters. -/
def isUrlChar (c : Char) : Bool :=
  decide (c = '!' ∨ ('$' ≤ c ∧ c ≤ '_') ∨ ('a' ≤ c ∧ c ≤ 'z'))

/-! ### Pass 1: markdown links -/

theorem splitFirstAtChar_of_not_mem (c : Char) :
    ∀ (a : List Char) (b : List Char), c ∉ a →
      splitFirstAtChar c (a ++ c :: b) = some (a, b) := by
  intro a
  induction a with
  | nil => intro b _; simp [splitFirstAtChar]
  | cons x xs ih =>
    intro b h
    have hx : x ≠ c := by
      intro hh
      exact h (by simp [hh])
    have hxs : c ∉ xs := by
      intro hh
      exact h (by simp [hh])
    simp only [List.cons_append, splitFirstAtChar, if_neg hx, List.append_eq]
    rw [ih b hxs]
    rfl

theorem splitFirstAtChar_eq_some (c : Char) :
    ∀ (l a b : List Char), splitFirstAtChar c l = some (a, b) →
      l = a ++ c :: b := by
  intro l
  induction l with
  | nil => intro a b h; exact Option.noConfusion h
  | cons x xs ih =>
    intro a b h
    by_cases hx : x = c
    · simp only [splitFirstAtChar, if_pos hx] at h
      obtain ⟨ha, hb⟩ := Prod.mk.injEq .. ▸ (Option.some.injEq ..).mp h
      subst hx
      rw [← ha, ← hb]
      rfl
    · simp only [splitFirstAtChar, if_neg hx] at h
      cases hsp : splitFirstAtChar c xs with
      | none => rw [hsp] at h; exact Option.noConfusion h
      | some p =>
        rw [hsp] at h
        simp only [Option.map_some', Option.some.injEq] at h
        obtain ⟨ha, hb⟩ := Prod.mk.injEq .. ▸ h
        rw [← ha, ← hb]
        simp [ih p.1 p.2 (by rw [hsp])]

/-- The attempt to match `\[([^\]]+)\]\([^\)]+\)` whose opening `[` has just
been consumed: the link text runs to the first `]` and must be non-empty, a
`(` must follow, and the url runs to the first `)` and must be non-empty.
Returns the link text and the remainder after the closing `)`. -/
def takeMdLink (rest : List Char) : Option (List Char × List Char) :=
  match splitFirstAtChar ']' rest with
  | none => none
  | some (t, r1) =>
    if t = [] then none
    else
      match r1 with
      | '(' :: r2 =>
        match splitFirstAtChar ')' r2 with
        | none => none
        | some (u, r3) => if u = [] then none else some (t, r3)
      | _ => none

theorem takeMdLink_eq_some (rest t r3 : List Char)
    (h : takeMdLink rest = some (t, r3)) :
    ∃ u, rest = t ++ ']' :: '(' :: u ++ ')' :: r3 ∧ t ≠ [] ∧ u ≠ [] := by
  unfold takeMdLink at h
  split at h
  · exact Option.noConfusion h
  · rename_i t1 r1 hsp
    split at h
    · exact Option.noConfusion h
    · rename_i ht
      split at h
      · rename_i r2
        split at h
        · exact Option.noConfusion h
        · rename_i u r3x hsp2
          split at h
          · exact Option.noConfusion h
          · rename_i hu
            obtain ⟨h1, h2⟩ := Prod.mk.injEq .. ▸ (Option.some.injEq ..).mp h
            refine ⟨u, ?_, ?_, hu⟩
            · rw [splitFirstAtChar_eq_some ']' rest t1 ('(' :: r2) hsp,
                splitFirstAtChar_eq_some ')' r2 u r3x hsp2, h1, h2]
              simp
            · rw [← h1]; exact ht
      · exact Option.noConfusion h

theorem takeMdLink_length (rest t r3 : List Char)
    (h : takeMdLink rest = some (t, r3)) : r3.length < rest.length := by
  obtain ⟨u, hrest, -, -⟩ := takeMdLink_eq_some rest t r3 h
  have := congrArg List.length hrest
  simp only [List.length_append, List.length_cons] at this
  omega

/-- The scan of pass 1 with fuel: at each `[` try the link pattern; on a
match emit the link text and continue after the closing `)`, otherwise emit
the character and move one position. -/
def mdScanF : ℕ → List Char → List Char
  | 0, _ => []
  | _ + 1, [] => []
  | fuel + 1, c :: rest =>
    if c = '[' then
      match takeMdLink rest with
      | some (t, restAfter) => t ++ mdScanF fuel restAfter
      | none => c :: mdScanF fuel rest
    else c :: mdScanF fuel rest

theorem mdScanF_cons (fuel : ℕ) (c : Char) (rest : List Char) :
    mdScanF (fuel + 1) (c :: rest) =
      if c = '[' then
        match takeMdLink rest with
        | some (t, restAfter) => t ++ mdScanF fuel restAfter
        | none => c :: mdScanF fuel rest
      else c :: mdScanF fuel rest := rfl

theorem mdScanF_congr :
    ∀ (fuel₁ : ℕ) (fuel₂ : ℕ) (l : List Char), l.length < fuel₁ →
      l.length < fuel₂ → mdScanF fuel₁ l = mdScanF fuel₂ l := by
  intro fuel₁
  induction fuel₁ with
  | zero => intro fuel₂ l h; omega
  | succ f ih =>
    intro fuel₂ l h1 h2
    cases fuel₂ with
    | zero => omega
    | succ f2 =>
      cases l with
      | nil => rfl
      | cons c rest =>
        simp only [List.length_cons] at h1 h2
        rw [mdScanF_cons f, mdScanF_cons f2]
        by_cases hc : c = '['
        · rw [if_pos hc, if_pos hc]
          cases hmd : takeMdLink rest with
          | none => rw [ih f2 rest (by omega) (by omega)]
          | some p =>
            obtain ⟨t, restAfter⟩ := p
            have hlen := takeMdLink_length rest t restAfter hmd
            show t ++ mdScanF f restAfter = t ++ mdScanF f2 restAfter
            rw [ih f2 restAfter (by omega) (by omega)]
        · rw [if_neg hc, if_neg hc, ih f2 rest (by omega) (by omega)]

/-- Pass 1: `re.sub(r'\[([^\]]+)\]\([^\)]+\)', r'\1', text)`. -/
def subMdLinks (l : List Char) : List Char := mdScanF (l.length + 1) l

theorem subMdLinks_nil : subMdLinks [] = [] := rfl

theorem subMdLinks_cons_other (c : Char) (rest : List Char) (hc : c ≠ '[') :
    subMdLinks (c :: rest) = c :: subMdLinks rest := by
  unfold subMdLinks
  simp only [List.length_cons]
  rw [mdScanF_cons, if_neg hc]

theorem subMdLinks_cons_noMatch (rest : List Char) (h : takeMdLink rest = none) :
    subMdLinks ('[' :: rest) = '[' :: subMdLinks rest := by
  unfold subMdLinks
  simp only [List.length_cons]
  rw [mdScanF_cons, if_pos rfl, h]

theorem subMdLinks_cons_link (rest t restAfter : List Char)
    (h : takeMdLink rest = some (t, restAfter)) :
    subMdLinks ('[' :: rest) = t ++ subMdLinks restAfter := by
  unfold subMdLinks
  simp only [List.length_cons]
  rw [mdScanF_cons, if_pos rfl, h]
  have hlen := takeMdLink_length rest t restAfter h
  show t ++ mdScanF (rest.length + 1) restAfter = t ++ mdScanF (restAfter.length + 1) restAfter
  rw [mdScanF_congr (rest.length + 1) (restAfter.length + 1) restAfter
    (by omega) (by omega)]

/-! ### Pass 2: bare URLs -/

/-- The characters of "http://". -/
def httpScheme : List Char := ['h', 't', 't', 'p', ':', '/', '/']

/-- The characters of "https://". -/
def httpsScheme : List Char := ['h', 't', 't', 'p', 's', ':', '/', '/']

/-- The scheme test of the URL pattern `http[s]?://...` at the current scan
position: the remainder after the literal "http://" or "https://" when one
of them starts here. -/
def urlSchemeSplit (l : List Char) : Option (List Char) :=
  if List.isPrefixOf httpScheme l then some (l.drop 7)
  else if List.isPrefixOf httpsScheme l then some (l.drop 8)
  else none

theorem urlSchemeSplit_length (l after : List Char)
    (h : urlSchemeSplit l = some after) : after.length + 7 ≤ l.length := by
  unfold urlSchemeSplit at h
  by_cases h1 : List.isPrefixOf httpScheme l = true
  · rw [if_pos h1] at h
    have hl : 7 ≤ l.length := by
      have := (List.isPrefixOf_iff_prefix.mp h1).length_le
      simpa [httpScheme] using this
    obtain ⟨rfl⟩ := Option.some.injEq .. ▸ h
    simp only [List.length_drop]
    omega
  · rw [if_neg h1] at h
    by_cases h2 : List.isPrefixOf httpsScheme l = true
    · rw [if_pos h2] at h
      have hl : 8 ≤ l.length := by
        have := (List.isPrefixOf_iff_prefix.mp h2).length_le
        simpa [httpsScheme] using this
      obtain ⟨rfl⟩ := Option.some.injEq .. ▸ h
      simp only [List.length_drop]
      omega
    · rw [if_neg h2] at h
      exact Option.noConfusion h

/-- The scan of pass 2 with fuel: at each position where a scheme matches
and at least one URL character follows, drop the scheme and the maximal run
of URL characters (the replacement is empty); otherwise emit the character
and move one position. -/
def urlScanF : ℕ → List Char → List Char
  | 0, _ => []
  | _ + 1, [] => []
  | fuel + 1, c :: rest =>
    match urlSchemeSplit (c :: rest) with
    | some after =>
      if after.takeWhile isUrlChar = [] then c :: urlScanF fuel rest
      else urlScanF fuel (after.dropWhile isUrlChar)
    | none => c :: urlScanF fuel rest

theorem urlScanF_cons (fuel : ℕ) (c : Char) (rest : List Char) :
    urlScanF (fuel + 1) (c :: rest) =
      match urlSchemeSplit (c :: rest) with
      | some after =>
        if after.takeWhile isUrlChar = [] then c :: urlScanF fuel rest
        else urlScanF fuel (after.dropWhile isUrlChar)
      | none => c :: urlScanF fuel rest := rfl

theorem urlScanF_congr :
    ∀ (fuel₁ : ℕ) (fuel₂ : ℕ) (l : List Char), l.length < fuel₁ →
      l.length < fuel₂ → urlScanF fuel₁ l = urlScanF fuel₂ l := by
  intro fuel₁
  induction fuel₁ with
  | zero => intro fuel₂ l h; omega
  | succ f ih =>
    intro fuel₂ l h1 h2
    cases fuel₂ with
    | zero => omega
    | succ f2 =>
      cases l with
      | nil => rfl
      | cons c rest =>
        simp only [List.length_cons] at h1 h2
        rw [urlScanF_cons f, urlScanF_cons f2]
        cases hsch : urlSchemeSplit (c :: rest) with
        | none =>
          show c :: urlScanF f rest = c :: urlScanF f2 rest
          rw [ih f2 rest (by omega) (by omega)]
        | some after =>
          have hlen := urlSchemeSplit_length (c :: rest) after hsch
          simp only [List.length_cons] at hlen
          by_cases hrun : after.takeWhile isUrlChar = []
          · show (if after.takeWhile isUrlChar = [] then c :: urlScanF f rest
              else urlScanF f (after.dropWhile isUrlChar)) =
              (if after.takeWhile isUrlChar = [] then c :: urlScanF f2 rest
              else urlScanF f2 (after.dropWhile isUrlChar))
            rw [if_pos hrun, if_pos hrun, ih f2 rest (by omega) (by omega)]
          · have hd : (after.dropWhile isUrlChar).length ≤ after.length :=
              length_dropWhile_le isUrlChar after
            show (if after.takeWhile isUrlChar = [] then c :: urlScanF f rest
              else urlScanF f (after.dropWhile isUrlChar)) =
              (if after.takeWhile isUrlChar = [] then c :: urlScanF f2 rest
              else urlScanF f2 (after.dropWhile isUrlChar))
            rw [if_neg hrun, if_neg hrun,
              ih f2 (after.dropWhile isUrlChar) (by omega) (by omega)]

/-- Pass 2: `re.sub(urlPattern, '', text)`. -/
def stripUrls (l : List Char) : List Char := urlScanF (l.length + 1) l

theorem stripUrls_nil : stripUrls [] = [] := rfl

theorem stripUrls_cons_noScheme (c : Char) (rest : List Char)
    (h : urlSchemeSplit (c :: rest) = none) :
    stripUrls (c :: rest) = c :: stripUrls rest := by
  unfold stripUrls
  simp only [List.length_cons]
  rw [urlScanF_cons, h]

theorem stripUrls_cons_emptyRun (c : Char) (rest after : List Char)
    (h : urlSchemeSplit (c :: rest) = some after)
    (hrun : after.takeWhile isUrlChar = []) :
    stripUrls (c :: rest) = c :: stripUrls rest := by
  unfold stripUrls
  simp only [List.length_cons]
  rw [urlScanF_cons, h]
  show (if after.takeWhile isUrlChar = [] then c :: urlScanF (rest.length + 1) rest
    else urlScanF (rest.length + 1) (after.dropWhile isUrlChar)) =
    c :: urlScanF (rest.length + 1) rest
  rw [if_pos hrun]

theorem stripUrls_cons_match (c : Char) (rest after : List Char)
    (h : urlSchemeSplit (c :: rest) = some after)
    (hrun : after.takeWhile isUrlChar ≠ []) :
    stripUrls (c :: rest) = stripUrls (after.dropWhile isUrlChar) := by
  unfold stripUrls
  simp only [List.length_cons]
  rw [urlScanF_cons, h]
  show (if after.takeWhile isUrlChar = [] then c :: urlScanF (rest.length + 1) rest
    else urlScanF (rest.length + 1) (after.dropWhile isUrlChar)) =
    urlScanF ((after.dropWhile isUrlChar).length + 1) (after.dropWhile isUrlChar)
  rw [if_neg hrun]
  have hlen := urlSchemeSplit_length (c :: rest) after h
  simp only [List.length_cons] at hlen
  have hd : (after.dropWhile isUrlChar).length ≤ after.length :=
    length_dropWhile_le isUrlChar after
  exact urlScanF_congr (rest.length + 1) ((after.dropWhile isUrlChar).length + 1)
    (after.dropWhile isUrlChar) (by omega) (by omega)

/-! ### Passes 3-5: punctuation, whitespace collapse, split -/

/-- Pass 3: `re.sub(r'[^\w\s]', ' ', text)` — every character that is
neither a word character nor whitespace becomes a space. -/
def substNonWord (l : List Char) : List Char :=
  l.map (fun c => if pyIsWordChar c || pyIsSpace c then c else ' ')

/-- Pass 4a with fuel: `re.sub(r'\s+', ' ', text)` — each maximal whitespace
run becomes a single space. -/
def collapseWsF : ℕ → List Char → List Char
  | 0, _ => []
  | _ + 1, [] => []
  | fuel + 1, c :: rest =>
    if pyIsSpace c then ' ' :: collapseWsF fuel (rest.dropWhile pyIsSpace)
    else c :: collapseWsF fuel rest

/-- Pass 4a: collapse whitespace runs. -/
def collapseWs (l : List Char) : List Char := collapseWsF (l.length + 1) l

/-- Pass 5 with fuel: Python `str.split()` — maximal non-whitespace runs. -/
def pySplitWsF : ℕ → List Char → List (List Char)
  | 0, _ => []
  | fuel + 1, l =>
    match l.dropWhile pyIsSpace with
    | [] => []
    | c :: rest =>
      (c :: rest.takeWhile (fun x => !pyIsSpace x)) ::
        pySplitWsF fuel (rest.dropWhile (fun x => !pyIsSpace x))

/-- Pass 5: Python `str.split()` with no separator. -/
def pySplitWs (l : List Char) : List (List Char) := pySplitWsF (l.length + 1) l

/-- `count_words(text)` (src/2_content_analysis.py lines 31-43): markdown
links keep their text, bare URLs are removed, non-word punctuation becomes
spaces, whitespace is collapsed and trimmed, and the whitespace-delimited
tokens are counted. -/
def count_words (text : List Char) : ℕ :=
  (pySplitWs (pyStrip (collapseWs (substNonWord (stripUrls (subMdLinks text)))))).length

/-! ### General lemmas about the passes -/

theorem subMdLinks_no_bracket :
    ∀ l : List Char, '[' ∉ l → subMdLinks l = l := by
  intro l
  induction l with
  | nil => intro _; rfl
  | cons c rest ih =>
    intro h
    have hc : c ≠ '[' := by
      intro hh
      exact h (by simp [hh])
    have hrest : '[' ∉ rest := by
      intro hh
      exact h (by simp [hh])
    rw [subMdLinks_cons_other c rest hc, ih hrest]

theorem takeMdLink_of_wellFormed (t u rest : List Char)
    (htm : ']' ∉ t) (ht : t ≠ []) (hum : ')' ∉ u) (hu : u ≠ []) :
    takeMdLink (t ++ ']' :: '(' :: (u ++ ')' :: rest)) = some (t, rest) := by
  unfold takeMdLink
  rw [show t ++ ']' :: '(' :: (u ++ ')' :: rest) =
    t ++ ']' :: ('(' :: (u ++ ')' :: rest)) from rfl]
  rw [splitFirstAtChar_of_not_mem ']' t ('(' :: (u ++ ')' :: rest)) htm]
  simp only [if_neg ht]
  rw [splitFirstAtChar_of_not_mem ')' u rest hum]
  simp only [if_neg hu]

theorem subMdLinks_wellFormed_link (t u rest : List Char)
    (htm : ']' ∉ t) (ht : t ≠ []) (hum : ')' ∉ u) (hu : u ≠ []) :
    subMdLinks ('[' :: (t ++ ']' :: '(' :: (u ++ ')' :: rest))) =
      t ++ subMdLinks rest :=
  subMdLinks_cons_link _ t rest (takeMdLink_of_wellFormed t u rest htm ht hum hu)

theorem urlSchemeSplit_http (b : List Char) :
    urlSchemeSplit (httpScheme ++ b) = some b := by
  simp [urlSchemeSplit, httpScheme, httpsScheme, List.isPrefixOf, List.cons_append]

theorem urlSchemeSplit_https (b : List Char) :
    urlSchemeSplit (httpsScheme ++ b) = some b := by
  simp [urlSchemeSplit, httpScheme, httpsScheme, List.isPrefixOf, List.cons_append]

theorem stripUrls_bareUrl_http (b : List Char) (hb : b ≠ [])
    (hall : ∀ c ∈ b, isUrlChar c = true) :
    stripUrls (httpScheme ++ b) = [] := by
  show stripUrls ('h' :: (['t', 't', 'p', ':', '/', '/'] ++ b)) = []
  cases b with
  | nil => exact absurd rfl hb
  | cons c0 b0 =>
    have hc0 : isUrlChar c0 = true := hall c0 (by simp)
    have hrun : (c0 :: b0).takeWhile isUrlChar ≠ [] := by
      rw [List.takeWhile_cons_of_pos hc0]
      exact List.cons_ne_nil _ _
    rw [stripUrls_cons_match 'h' (['t', 't', 'p', ':', '/', '/'] ++ (c0 :: b0))
      (c0 :: b0) (urlSchemeSplit_http (c0 :: b0)) hrun]
    rw [List.dropWhile_eq_nil_iff.mpr hall]
    rfl

theorem stripUrls_bareUrl_https (b : List Char) (hb : b ≠ [])
    (hall : ∀ c ∈ b, isUrlChar c = true) :
    stripUrls (httpsScheme ++ b) = [] := by
  show stripUrls ('h' :: (['t', 't', 'p', 's', ':', '/', '/'] ++ b)) = []
  cases b with
  | nil => exact absurd rfl hb
  | cons c0 b0 =>
    have hc0 : isUrlChar c0 = true := hall c0 (by simp)
    have hrun : (c0 :: b0).takeWhile isUrlChar ≠ [] := by
      rw [List.takeWhile_cons_of_pos hc0]
      exact List.cons_ne_nil _ _
    rw [stripUrls_cons_match 'h' (['t', 't', 'p', 's', ':', '/', '/'] ++ (c0 :: b0))
      (c0 :: b0) (urlSchemeSplit_https (c0 :: b0)) hrun]
    rw [List.dropWhile_eq_nil_iff.mpr hall]
    rfl

theorem count_words_bareUrl (b : List Char) (hb : b ≠ [])
    (hall : ∀ c ∈ b, isUrlChar c = true) (hbr : '[' ∉ b) :
    count_words (httpScheme ++ b) = 0 ∧ count_words (httpsScheme ++ b) = 0 := by
  constructor
  · unfold count_words
    rw [subMdLinks_no_bracket (httpScheme ++ b) (by
      intro hmem
      rcases List.mem_append.mp hmem with h | h
      · simp [httpScheme] at h
      · exact hbr h)]
    rw [stripUrls_bareUrl_http b hb hall]
    rfl
  · unfold count_words
    rw [subMdLinks_no_bracket (httpsScheme ++ b) (by
      intro hmem
      rcases List.mem_append.mp hmem with h | h
      · simp [httpsScheme] at h
      · exact hbr h)]
    rw [stripUrls_bareUrl_https b hb hall]
    rfl

/-- C7 counterexample: `count_words` on the spec's example string returns 3,
not 2 — the markdown pass keeps the link text "link", which counts as a
word. -/
theorem C7_count_words_counterexample :
    count_words "[link](http://x.com) hello world".data = 3 ∧
    ¬ count_words "[link](http://x.com) hello world".data = 2 :=
  ⟨by decide, by decide⟩

/-- C7 (amended): `count_words "[link](http://x.com) hello world" = 3`;
markdown link syntax `[text](url)` is replaced by just its text, which then
counts as words; bare URLs (a scheme followed by URL-pattern characters)
are stripped before counting, so text consisting only of a URL counts as 0
words, as does a whitespace-separated sequence of URLs. -/
theorem C7_count_words_amended :
    count_words "[link](http://x.com) hello world".data = 3 ∧
    (∀ t u rest : List Char, ']' ∉ t → t ≠ [] → ')' ∉ u → u ≠ [] →
      subMdLinks ('[' :: (t ++ ']' :: '(' :: (u ++ ')' :: rest))) =
        t ++ subMdLinks rest) ∧
    (∀ b : List Char, b ≠ [] → (∀ c ∈ b, isUrlChar c = true) → '[' ∉ b →
      count_words (httpScheme ++ b) = 0 ∧ count_words (httpsScheme ++ b) = 0) ∧
    httpScheme = "http://".data ∧
    httpsScheme = "https://".data ∧
    count_words "http://x.com https://y.org/a_b".data = 0 :=
  ⟨by decide,
   fun t u rest htm ht hum hu => subMdLinks_wellFormed_link t u rest htm ht hum hu,
   fun b hb hall hbr => count_words_bareUrl b hb hall hbr,
   by decide, by decide, by decide⟩

/-- Witness for C7 at the concrete link text "link", url "http://x.com" and
bare URL body "x.com". -/
theorem C7_count_words_amended_witness :
    (']' ∉ "link".data ∧ "link".data ≠ ([] : List Char) ∧
     ')' ∉ "http://x.com".data ∧ "http://x.com".data ≠ ([] : List Char)) ∧
    subMdLinks ('[' :: ("link".data ++ ']' :: '(' ::
        ("http://x.com".data ++ ')' :: " hello world".data))) =
      "link".data ++ subMdLinks " hello world".data ∧
    ("x.com".data ≠ ([] : List Char) ∧
     (∀ c ∈ "x.com".data, isUrlChar c = true) ∧ '[' ∉ "x.com".data) ∧
    count_words (httpScheme ++ "x.com".data) = 0 :=
  ⟨⟨by decide, by decide, by decide, by decide⟩,
   C7_count_words_amended.2.1 "link".data "http://x.com".data " hello world".data
     (by decide) (by decide) (by decide) (by decide),
   ⟨by decide, by decide, by decide⟩,
   (C7_count_words_amended.2.2.1 "x.com".data (by decide) (by decide) (by decide)).1⟩

end AiJudge
